import Mathlib

/-!
Shallow embedding of `src/main.js` of github-to-omnifocus.

The reconciliation core of the program is two pure list filters:
the creation-planning filter inside `addNewIssues` (main.js:146-149) and the
retirement-planning filter inside `completeMissingIssues` (main.js:174-181),
both correlating a remote item with a local task by literal string-prefix
matching (`e.title.startsWith(iss.prefix)`).  Around them sit the
identifier extractor for pull requests (the `prefix` arrow function,
main.js:97-100, a regex over the item's `html_url`) and the orchestration in
`main` (two independently try/catch-wrapped category passes).

JS strings are modelled as Lean `String` (a wrapper over `List Char`; every
string these claims touch is ASCII), and `String.prototype.startsWith` as
`isPrefixOf` on the underlying character lists.
-/

/-- JS `String.prototype.startsWith(p)` on `s`: `p` is a literal prefix of `s`. -/
def jsStartsWith (s p : String) : Bool := p.data.isPrefixOf s.data

/-- `PotentialTask` (main.js:13-22): the internal representation of a potential
task.  The source's field `prefix` is a Lean keyword, so it is named `pfx` here;
`title`, `body` keep their names. -/
structure PotentialTask where
  pfx : String
  title : String
  body : String
deriving DecidableEq, Repr

/-- `CurrentTask` (main.js:26-33): a current task fetched from OmniFocus. -/
structure CurrentTask where
  id : String
  title : String
deriving DecidableEq, Repr

/-- The creation-planning filter inside `addNewIssues` (main.js:146-149):
`issues.filter(iss => !currentTasks.some(e => e.title.startsWith(iss.prefix)))`. -/
def planCreations (issues : List PotentialTask) (currentTasks : List CurrentTask) :
    List PotentialTask :=
  issues.filter fun iss => !(currentTasks.any fun e => jsStartsWith e.title iss.pfx)

/-- The retirement-planning filter inside `completeMissingIssues`
(main.js:174-181): `issuePrefixes = issues.map(iss => iss.prefix)` and then
`currentTasks.filter(t => !issuePrefixes.some(e => t.title.startsWith(e)))`.
The intermediate list is named `issueKeys` here (source: `issuePrefixes`). -/
def planRetirements (currentTasks : List CurrentTask) (issues : List PotentialTask) :
    List CurrentTask :=
  let issueKeys := issues.map fun iss => iss.pfx
  currentTasks.filter fun t => !(issueKeys.any fun e => jsStartsWith t.title e)

/-- C1: a remote item is planned for creation iff it is in the remote list and
no local item's title starts with its identifier, and the plan is a subsequence
of the remote list in its order. -/
theorem planCreations_spec (R : List PotentialTask) (L : List CurrentTask) :
    (∀ r, r ∈ planCreations R L ↔
      r ∈ R ∧ ∀ l ∈ L, jsStartsWith l.title r.pfx = false)
    ∧ (planCreations R L).Sublist R := by
  constructor
  · intro r
    simp only [planCreations, List.mem_filter, Bool.not_eq_true', List.any_eq_false,
      Bool.not_eq_true]
  · exact List.filter_sublist R

/-- C2: a local task is planned for retirement iff it is in the local list and
its title has no remote item's identifier as a literal prefix; with no remote
items every local task is retired. -/
theorem planRetirements_spec (L : List CurrentTask) (R : List PotentialTask) :
    (∀ l, l ∈ planRetirements L R ↔
      l ∈ L ∧ ∀ r ∈ R, jsStartsWith l.title r.pfx = false)
    ∧ planRetirements L [] = L := by
  constructor
  · intro l
    simp only [planRetirements, List.mem_filter, Bool.not_eq_true', List.any_eq_false,
      Bool.not_eq_true, List.mem_map, forall_exists_index, and_imp]
    constructor
    · rintro ⟨hl, h⟩
      exact ⟨hl, fun r hr => h _ r hr rfl⟩
    · rintro ⟨hl, h⟩
      exact ⟨hl, fun e r hr he => he ▸ h r hr⟩
  · simp [planRetirements]

/-- C6: both planners on empty inputs: an empty remote list plans no creation,
an empty local list plans every remote item, an empty local list plans no
retirement, and an empty remote list retires every local task. -/
theorem empty_input_boundaries (R : List PotentialTask) (L : List CurrentTask) :
    planCreations [] L = [] ∧ planCreations R [] = R
    ∧ planRetirements [] R = [] ∧ planRetirements L [] = L := by
  refine ⟨rfl, ?_, rfl, ?_⟩ <;> simp [planCreations, planRetirements]

/-- The matched subset of the remote list: those remote items some local task's
title already starts with.  This is the complement filter of `planCreations`
over the same lists (the `currentTasks.some(...)` test of main.js:148 without
the negation). -/
def matchedSubset (issues : List PotentialTask) (currentTasks : List CurrentTask) :
    List PotentialTask :=
  issues.filter fun iss => currentTasks.any fun e => jsStartsWith e.title iss.pfx

/-- A remote item whose identifier-prefixed title is used by the concrete
scenarios below. -/
def sampleRemote : PotentialTask :=
  { pfx := "acme/widgets#12"
    title := "acme/widgets#12 Fix bug"
    body := "https://example.com/acme/widgets/12" }

/-- C5 counterexample: with a duplicated remote entry and no local tasks, the
creation plan repeats the entry, so the plan is not duplicate-free as stated. -/
theorem planCreations_dup_counterexample :
    ¬ (planCreations [sampleRemote, sampleRemote] []).Nodup := by
  decide

/-- C5 amended: the creation plan and the matched subset are disjoint, together
they are a permutation of the remote list (every remote item is classified as
exactly one of the two), and when the remote list itself has no duplicate
entries neither part does. -/
theorem planCreations_partition (R : List PotentialTask) (L : List CurrentTask) :
    (∀ r, ¬(r ∈ planCreations R L ∧ r ∈ matchedSubset R L))
    ∧ (∀ r, r ∈ R ↔ r ∈ planCreations R L ∨ r ∈ matchedSubset R L)
    ∧ (planCreations R L ++ matchedSubset R L).Perm R
    ∧ (R.Nodup → (planCreations R L).Nodup ∧ (matchedSubset R L).Nodup) := by
  have hperm : (planCreations R L ++ matchedSubset R L).Perm R := by
    unfold planCreations matchedSubset
    exact List.perm_append_comm.trans
      (List.filter_append_perm (fun iss => L.any fun e => jsStartsWith e.title iss.pfx) R)
  refine ⟨?_, ?_, hperm, ?_⟩
  · rintro r ⟨h1, h2⟩
    rw [planCreations, List.mem_filter] at h1
    rw [matchedSubset, List.mem_filter] at h2
    rw [h2.2] at h1
    exact absurd h1.2 (by simp)
  · intro r
    rw [← hperm.mem_iff, List.mem_append]
  · intro h
    exact ⟨h.filter _, h.filter _⟩

/-- A string starts with `p` whenever it is `p ++ q ++ r` literally. -/
theorem jsStartsWith_append_append (p q r : String) :
    jsStartsWith (p ++ q ++ r) p = true := by
  unfold jsStartsWith
  rw [String.data_append, String.data_append]
  exact List.isPrefixOf_iff_prefix.mpr
    ((List.prefix_append p.data q.data).trans (List.prefix_append _ _))

/-- Applying a creation plan (main.js:150-153): each planned item is handed to
`omnifocus.addNewTask` with `iss.title` as the task name, so it reappears in
the next local snapshot as a `CurrentTask` carrying that title; the local
store chooses the id (`newId`). -/
def applyCreations (plan : List PotentialTask) (newId : PotentialTask → String) :
    List CurrentTask :=
  plan.map fun iss => { id := newId iss, title := iss.title }

/-- C4: when every remote item's title is its identifier followed by a space
and the remote title (as `main` constructs them), appending the applied
creation plan to the local list and re-running the creation planner against
the unchanged remote list plans nothing. -/
theorem planCreations_idempotent (R : List PotentialTask) (L : List CurrentTask)
    (newId : PotentialTask → String)
    (h : ∀ r ∈ R, ∃ s, r.title = r.pfx ++ " " ++ s) :
    planCreations R (L ++ applyCreations (planCreations R L) newId) = [] := by
  rw [planCreations, List.filter_eq_nil_iff]
  intro r hr
  simp only [Bool.not_eq_true', Bool.not_eq_false]
  rw [List.any_append, Bool.or_eq_true]
  by_cases hL : (L.any fun e => jsStartsWith e.title r.pfx) = true
  · exact Or.inl hL
  · right
    obtain ⟨s, hs⟩ := h r hr
    refine List.any_eq_true.mpr ⟨⟨newId r, r.title⟩, ?_, ?_⟩
    · exact List.mem_map.mpr
        ⟨r, List.mem_filter.mpr ⟨hr, by simp [Bool.eq_false_iff.mpr hL]⟩, rfl⟩
    · show jsStartsWith r.title r.pfx = true
      rw [hs]
      exact jsStartsWith_append_append _ _ _

/-- C4 witness: the idempotence theorem applied to the one-item scenario of the
spec (`acme/widgets#12`) with an initially empty local list. -/
theorem planCreations_idempotent_witness :
    planCreations [sampleRemote]
      ([] ++ applyCreations (planCreations [sampleRemote] []) fun _ => "x1") = [] :=
  planCreations_idempotent [sampleRemote] [] (fun _ => "x1")
    (fun r hr => by
      rw [List.mem_singleton] at hr
      exact ⟨"Fix bug", by rw [hr]; rfl⟩)

/-- Strip a literal character sequence off the front of `s`: the remainder when
`s` starts with `lit`, else `none`. -/
def stripLit : List Char → List Char → Option (List Char)
  | [], s => some s
  | _ :: _, [] => none
  | p :: ps, c :: cs => if c = p then stripLit ps cs else none

/-- One attempt, at a fixed start position, of the regex of main.js:98
`^https:\/\/github[^\0]ibm[^\0]com\/([^\/]+)\/([^\/]+)` — the literal
`https://github`, any one character except NUL, `ibm`, any one character
except NUL, `com/`, then the two capture groups: a maximal nonempty run of
non-`/` characters, a `/`, and a second maximal nonempty run of non-`/`
characters.  (The character-class and greedy-repetition steps are
deterministic here: `[^\0]` consumes exactly one character, and a shorter
match of `([^\/]+)` would leave a non-`/` character where the regex needs
`/`, so backtracking never helps.) -/
def matchFrom (s : List Char) : Option (String × String) :=
  match stripLit "https://github".data s with
  | none => none
  | some s1 =>
    match s1 with
    | [] => none
    | c1 :: s2 =>
      if c1 = '\x00' then none
      else
        match stripLit "ibm".data s2 with
        | none => none
        | some s3 =>
          match s3 with
          | [] => none
          | c2 :: s4 =>
            if c2 = '\x00' then none
            else
              match stripLit "com/".data s4 with
              | none => none
              | some s5 =>
                let g1 := s5.takeWhile fun c => c ≠ '/'
                if g1.isEmpty then none
                else
                  match s5.dropWhile fun c => c ≠ '/' with
                  | '/' :: s6 =>
                    let g2 := s6.takeWhile fun c => c ≠ '/'
                    if g2.isEmpty then none
                    else some (⟨g1⟩, ⟨g2⟩)
                  | _ => none

/-- The characters after the first newline, `none` when there is none: with the
`m` flag, `^` also anchors right after every `\n`. -/
def findNL : List Char → Option (List Char)
  | [] => none
  | c :: cs => if c = '\n' then some cs else findNL cs

/-- Try `matchFrom` at the start and then after every newline, left to right
(fuel-driven; `findNL` always returns a strictly shorter list, so length + 1
attempts are enough). -/
def jsMatchGo : Nat → List Char → Option (String × String)
  | 0, _ => none
  | n + 1, s =>
    match matchFrom s with
    | some r => some r
    | none =>
      match findNL s with
      | none => none
      | some rest => jsMatchGo n rest

/-- JS `t.html_url.match(re)` for the regex of main.js:98: the two capture
groups when some anchor position matches, `none` (JS `null`) otherwise. -/
def jsMatch (s : List Char) : Option (String × String) :=
  jsMatchGo (s.length + 1) s

/-- How the `prefix` arrow function of main.js:97-100 can leave its caller:
with a value, or with the JS error a failed run throws.  `typeError` is the
`TypeError` thrown by reading `m[1]` when `match` returned `null`;
`malformedReferenceError` is the `MalformedReferenceError` the specification
requires for malformed references — no code in the repository defines or
throws it. -/
inductive JsError where
  | typeError
  | malformedReferenceError
deriving DecidableEq, Repr

/-- A fetched pull request as main.js:97-110 reads it: `html_url`, `number`,
`title`. -/
structure PRItem where
  html_url : String
  number : Nat
  title : String
deriving DecidableEq, Repr

/-- The `prefix` arrow function (main.js:97-100), named `prIdent` here because
`prefix` is reserved in Lean: match the regex against `t.html_url`; on success
format `` `${m[1]}/${m[2]}#${t.number}` ``, on failure reading `m[1]` of the
`null` result throws a `TypeError`. -/
def prIdent (t : PRItem) : Except JsError String :=
  match jsMatch t.html_url.data with
  | none => Except.error JsError.typeError
  | some (org, repo) => Except.ok (org ++ "/" ++ repo ++ "#" ++ toString t.number)

/-- A fetched issue as main.js:63-64 reads it: `iss.repository.full_name`
(flattened to one field here), `iss.number`, `iss.title`, `iss.html_url`. -/
structure Issue where
  repository_full_name : String
  number : Nat
  title : String
  html_url : String
deriving DecidableEq, Repr

/-- The issue-to-task construction of main.js:63-70:
`prefix = iss.repository.full_name + "#" + iss.number`, title
`` `${prefix} ${iss.title}` ``, body `iss.html_url`. -/
def issueToTask (iss : Issue) : PotentialTask :=
  let p := iss.repository_full_name ++ "#" ++ toString iss.number
  { pfx := p, title := p ++ " " ++ iss.title, body := iss.html_url }

/-- The pull-request-to-task construction of main.js:104-110: both `prefix`
and title call the extractor (`` `${prefix(pr)} ${pr.title}` ``), so a failed
extraction throws out of the construction. -/
def prToTask (pr : PRItem) : Except JsError PotentialTask :=
  match prIdent pr with
  | Except.error e => Except.error e
  | Except.ok p =>
      Except.ok { pfx := p, title := p ++ " " ++ pr.title, body := pr.html_url }

/-- C9: every constructed PotentialTask — from an issue, or from a pull request
whose construction returned — has title equal to its identifier, a single
space, then the remote title, and hence a title starting with its identifier. -/
theorem constructed_title_invariant :
    (∀ iss : Issue,
      (issueToTask iss).title = (issueToTask iss).pfx ++ " " ++ iss.title
      ∧ jsStartsWith (issueToTask iss).title (issueToTask iss).pfx = true)
    ∧ (∀ (pr : PRItem) (pt : PotentialTask), prToTask pr = Except.ok pt →
      pt.title = pt.pfx ++ " " ++ pr.title
      ∧ jsStartsWith pt.title pt.pfx = true) := by
  constructor
  · intro iss
    exact ⟨rfl, jsStartsWith_append_append _ _ _⟩
  · intro pr pt h
    rw [prToTask] at h
    cases hm : prIdent pr with
    | error e => rw [hm] at h; cases h
    | ok p =>
      rw [hm] at h
      cases h
      exact ⟨rfl, jsStartsWith_append_append _ _ _⟩

/-- A pull request whose reference URL does not match the extraction regex at
all: the concrete malformed input of C3. -/
def badPr : PRItem :=
  { html_url := "https://example.com/acme/widgets/pull/12"
    number := 12
    title := "Fix bug" }

/-- C3: at the malformed reference `badPr` the extractor throws — but it throws
the `TypeError` of reading `m[1]` on the `null` match result, which is not the
`MalformedReferenceError` the specification names; and on every reference the
regex does not match, the error thrown is that same `TypeError`, never a
`MalformedReferenceError`. -/
theorem prIdent_typeError_on_malformed :
    (prIdent badPr = Except.error JsError.typeError
      ∧ JsError.typeError ≠ JsError.malformedReferenceError)
    ∧ (∀ t : PRItem, jsMatch t.html_url.data = none →
        prIdent t = Except.error JsError.typeError) := by
  refine ⟨⟨rfl, by decide⟩, ?_⟩
  intro t h
  rw [prIdent, h]

/-- C10: an input URL whose host is not literally `github.ibm.com` — here
`githubXibmYcom`, an arbitrary non-NUL character standing in for each dot —
still matches the extraction regex, and an `<org>/<repo>#<number>` identifier
is returned. -/
theorem prIdent_host_leniency :
    ∃ t : PRItem,
      jsStartsWith t.html_url "https://github.ibm.com" = false
      ∧ prIdent t = Except.ok "acme/widgets#12" := by
  refine ⟨{ html_url := "https://githubXibmYcom/acme/widgets/pull/12"
            number := 12
            title := "Fix bug" }, by decide, rfl⟩

/-- One externally visible action of a reconciliation pass: a call into the
OmniFocus bridge, or `console.error` at a catch boundary. -/
inductive Effect where
  | addNewTask (omnifocusProject title ofTag body : String)
  | markTaskComplete (id : String)
  | logError (msg : String)
deriving DecidableEq, Repr

/-- The batch of `omnifocus.addNewTask` calls `addNewIssues` issues
(main.js:146-153): one per planned creation.  The `.map` creates every
promise — i.e. fires every call — before `Promise.all` at main.js:156 ever
observes an outcome. -/
def addNewIssuesCalls (omnifocusProject ofTag : String)
    (currentTasks : List CurrentTask) (issues : List PotentialTask) : List Effect :=
  (planCreations issues currentTasks).map fun iss =>
    Effect.addNewTask omnifocusProject iss.title ofTag iss.body

/-- The batch of `omnifocus.markTaskComplete` calls `completeMissingIssues`
issues (main.js:180-185): one per planned retirement, likewise all fired by
`.map` before `Promise.all` at main.js:188. -/
def completeMissingCalls (currentTasks : List CurrentTask)
    (issues : List PotentialTask) : List Effect :=
  (planRetirements currentTasks issues).map fun t => Effect.markTaskComplete t.id

/-- Settling a batch of already-fired calls: the store accepts or rejects each
one (`outcome`); `Promise.all` only observes the outcomes — it neither issues
a new call nor re-issues a failed one — so the trace pairs each fired call
with its outcome. -/
def runBatch (outcome : Effect → Except String Unit) (calls : List Effect) :
    List (Effect × Except String Unit) :=
  calls.map fun c => (c, outcome c)

/-- C7: whatever outcomes the store produces — any subset of the batch may
fail — the calls fired by a creation batch and by a retirement batch are
exactly the planned ones, in order: every sibling of a failed action is still
issued, and no action (failed or not) is issued twice. -/
theorem per_action_failure_isolation (omnifocusProject ofTag : String)
    (currentTasks : List CurrentTask) (issues : List PotentialTask)
    (outcome : Effect → Except String Unit) :
    ((runBatch outcome (addNewIssuesCalls omnifocusProject ofTag currentTasks issues)).map
        Prod.fst = addNewIssuesCalls omnifocusProject ofTag currentTasks issues)
    ∧ ((runBatch outcome (completeMissingCalls currentTasks issues)).map Prod.fst
        = completeMissingCalls currentTasks issues) := by
  constructor <;> · rw [runBatch, List.map_map]; exact List.map_id' _

/-- A category pass body as the orchestrator sees it: the effects it performed,
and the error it left uncaught at its end, when it threw. -/
structure Comp where
  effects : List Effect
  err : Option String
deriving DecidableEq, Repr

/-- JS sequencing of two blocks: when the first throws, the second never
runs. -/
def seqComp (a b : Comp) : Comp :=
  match a.err with
  | some e => { effects := a.effects, err := some e }
  | none => { effects := a.effects ++ b.effects, err := b.err }

/-- A `try { ... } catch (err) { console.error(err) }` wrapper (main.js:58-90
and main.js:94-129): the body's effects happen; a thrown error is logged and
swallowed, never rethrown. -/
def catchLogged (a : Comp) : Comp :=
  match a.err with
  | some e => { effects := a.effects ++ [Effect.logError e], err := none }
  | none => a

/-- `main`'s category orchestration (main.js:58-129): the issues block, then
the pull-requests block, each inside its own try/catch. -/
def mainPasses (issuesBlock prsBlock : Comp) : Comp :=
  seqComp (catchLogged issuesBlock) (catchLogged prsBlock)

/-- C8: for every behaviour of the two category blocks — each may throw
anywhere, leaving any effects behind — `main` itself never rethrows, the
pull-requests block's full effects follow the issues block's regardless of an
issues failure (and symmetrically the issues block always runs first,
unaffected by a pull-requests failure), and each catch keeps its own block's
effects intact, only appending the error log. -/
theorem category_isolation (issuesBlock prsBlock : Comp) :
    (mainPasses issuesBlock prsBlock).err = none
    ∧ (mainPasses issuesBlock prsBlock).effects
        = (catchLogged issuesBlock).effects ++ (catchLogged prsBlock).effects
    ∧ issuesBlock.effects <+: (catchLogged issuesBlock).effects
    ∧ prsBlock.effects <+: (catchLogged prsBlock).effects := by
  obtain ⟨e1, o1⟩ := issuesBlock
  obtain ⟨e2, o2⟩ := prsBlock
  cases o1 <;> cases o2 <;>
    simp [mainPasses, seqComp, catchLogged, List.prefix_append]
